import Mathlib

/-!
Verification of the `errgo` procedural-macro crate (src/lib.rs, src/data.rs,
src/config.rs) against its natural-language specification.

The development shallowly embeds the parts of the crate the claims are about:

* a token-tree model of `proc_macro2::TokenStream` (`Tok`);
* the subset of `syn`'s data model the crate manipulates (`Path`, `Ty`,
  `GenericArgument`, `Expr`, `Variant`, ...);
* the crate's own data model from src/data.rs (`VariantWithValue`,
  `MultipleFieldsWithValues`, the field entries) together with its two
  projections `into_syn_variant` and ` into_syn_expr_with_prefix`;
* the `Parse` implementations from src/data.rs as token-list parsers
  (`syn`'s primitive parsers for identifiers, visibilities, attributes,
  types and expressions are modelled at their documented interface);
* the target-type resolver `get_struct_name_from_return_type` from
  src/lib.rs;
* the mutating visitor `ErrAsYouGoVisitor` (its `visit_macro_mut` override
  and `syn`'s depth-first traversal) from src/lib.rs;
* the configuration parser from src/config.rs and the toplevel assembly
  performed by the `errgo` entry point in src/lib.rs.
-/

namespace Errgo

/-! ## Token trees (model of `proc_macro2::TokenStream`) -/

/-- Delimiters of a `proc_macro2::Group`. -/
inductive Delim where
  | paren
  | brace
  | bracket
deriving Repr

/-- A `proc_macro2::TokenTree`: an identifier, a delimited group (whose
contents are a token list), a punctuation character, or a literal.
Multi-character punctuation such as `::` appears as consecutive
single-character puncts. -/
inductive Tok where
  | ident (s : String)
  | group (delim : Delim) (tokens : List Tok)
  | punct (c : Char)
  | lit (s : String)
deriving Repr

/-! ## The `syn` type/path data model used by the crate -/

mutual
/-- `syn::Type`, restricted to the two shapes this crate produces or
inspects: `Type::Path` (with a flag recording whether a `qself` is
present) and an opaque token run (`syn`'s `Type::Verbatim`), which is how
we model the field types that the crate carries through uninterpreted. -/
inductive Ty where
  | path (qselfSome : Bool) (path : Path)
  | verbatim (tokens : List Tok)

/-- `syn::Path`: an optional leading `::` and a list of segments. -/
inductive Path where
  | mk (leading_colon : Bool) (segments : List PathSegment)

/-- `syn::PathSegment`: an identifier plus its generic arguments. -/
inductive PathSegment where
  | mk (ident : String) (arguments : PathArguments)

/-- `syn::PathArguments`. -/
inductive PathArguments where
  | none
  | angleBracketed (args : List GenericArgument)
  | parenthesized (tokens : List Tok)

/-- `syn::GenericArgument`: a lifetime, a type, or one of the remaining
argument kinds (const arguments, associated-type bindings, constraints),
which the crate never inspects and we keep as opaque token runs. -/
inductive GenericArgument where
  | lifetime (name : String)
  | type (ty : Ty)
  | other (tokens : List Tok)
end

def Path.leading_colon : Path → Bool
  | .mk lc _ => lc

def Path.segments : Path → List PathSegment
  | .mk _ segs => segs

def PathSegment.ident : PathSegment → String
  | .mk id _ => id

def PathSegment.arguments : PathSegment → PathArguments
  | .mk _ args => args

/-- `syn::PathArguments::is_none`. -/
def PathArguments.is_none : PathArguments → Bool
  | .none => true
  | _ => false

/-- `syn::PathArguments::is_empty`: `None` is empty, angle-bracketed
arguments are empty when the argument list is, parenthesized arguments
never are. -/
def PathArguments.is_empty : PathArguments → Bool
  | .none => true
  | .angleBracketed args => args.isEmpty
  | .parenthesized _ => false

/-- `syn::Path::is_ident`: true exactly when the path has no leading
colon, a single segment with no generic arguments, and that segment's
identifier equals `name`. -/
def Path.is_ident (p : Path) (name : String) : Bool :=
  match p with
  | .mk false [PathSegment.mk id args] => PathArguments.is_none args && id == name
  | _ => false

/-- The helper `fn path(segments)` from src/lib.rs: a path with no leading
colon whose segments carry no generic arguments. -/
def pathOf (segments : List String) : Path :=
  Path.mk false (segments.map fun s => PathSegment.mk s PathArguments.none)

/-- `syn::Path::from(Ident)`: a one-segment path. -/
def Path.fromIdent (s : String) : Path := pathOf [s]

/-! ## Expressions (the subset of `syn::Expr` the crate constructs) -/

/-- `syn::Expr`, restricted to the shapes the crate constructs
(`Expr::Struct`, `Expr::Call` with a path callee, `Expr::Path`) plus an
opaque token run (`syn`'s `Expr::Verbatim`) modelling the field values and
discriminant expressions that are carried through uninterpreted.
A struct field is a `syn::FieldValue` with a named member and an explicit
colon, modelled as a `(member name, value)` pair — the crate constructs
nothing else. -/
inductive Expr where
  | structE (path : Path) (fields : List (String × Expr))
  | call (func : Expr) (args : List Expr)
  | pathE (path : Path)
  | raw (tokens : List Tok)

/-! ## Attributes, visibilities -/

/-- `syn::Attribute` (an outer attribute `#[...]`), modelled by the token
list between the brackets: the crate passes attributes through verbatim
and never inspects their meta structure. -/
def Attribute := List Tok

/-- `syn::Visibility`. -/
inductive Visibility where
  | public
  | restricted (tokens : List Tok)
  | inherited

/-! ## The crate's data model (src/data.rs) -/

/-- `FieldWithValueNamed` from src/data.rs (the `colon_token` and
`eq_token` fields, which carry no information, are dropped). -/
structure FieldWithValueNamed where
  attrs : List Attribute
  ident : String
  ty : Ty
  expr : Expr

/-- `FieldWithValueUnnamed` from src/data.rs. -/
structure FieldWithValueUnnamed where
  attrs : List Attribute
  ty : Ty
  expr : Expr

/-- `MultipleFieldsWithValues` from src/data.rs; the `Named`/`Unnamed`
wrappers (`MultipleFieldsWithValueNamed`, `MultipleFieldsWithValuesUnnamed`)
hold only a delimiter token and a punctuated field list, so they are
modelled as plain lists. -/
inductive MultipleFieldsWithValues where
  | named (fields : List FieldWithValueNamed)
  | unnamed (fields : List FieldWithValueUnnamed)
  | unit

/-- `VariantWithValue` from src/data.rs (the discriminant's `=`-token is
dropped). -/
structure VariantWithValue where
  attrs : List Attribute
  ident : String
  fields : MultipleFieldsWithValues
  discriminant : Option Expr

/-! ## The `syn` declaration side (`syn::Variant`) -/

/-- `syn::Field` (visibility is always `Inherited` and mutability always
`None` in the fields this crate builds, so both are dropped). -/
structure Field where
  attrs : List Attribute
  ident : Option String
  ty : Ty

/-- `syn::Fields`. -/
inductive Fields where
  | named (fields : List Field)
  | unnamed (fields : List Field)
  | unit

/-- `syn::Variant`. -/
structure Variant where
  attrs : List Attribute
  ident : String
  fields : Fields
  discriminant : Option Expr

/-- `From<FieldWithValueNamed> for Field` (src/data.rs): keeps attrs,
name and type; the value is dropped. -/
def FieldWithValueNamed.toField (f : FieldWithValueNamed) : Field :=
  ⟨f.attrs, some f.ident, f.ty⟩

/-- `From<FieldWithValueUnnamed> for Field` (src/data.rs). -/
def FieldWithValueUnnamed.toField (f : FieldWithValueUnnamed) : Field :=
  ⟨f.attrs, Option.none, f.ty⟩

/-- `From<MultipleFieldsWithValues> for Fields` (src/data.rs). -/
def MultipleFieldsWithValues.toFields : MultipleFieldsWithValues → Fields
  | .named fs => .named (fs.map FieldWithValueNamed.toField)
  | .unnamed fs => .unnamed (fs.map FieldWithValueUnnamed.toField)
  | .unit => .unit

/-- `VariantWithValue::into_syn_variant`, i.e. the
`From<VariantWithValue> for Variant` impl in src/data.rs: attrs, name and
discriminant are kept, fields are converted (dropping the values). -/
def VariantWithValue.into_syn_variant (v : VariantWithValue) : Variant :=
  ⟨v.attrs, v.ident, MultipleFieldsWithValues.toFields v.fields, v.discriminant⟩

/-- `VariantWithValue::into_syn_expr_with_prefix` (src/data.rs): pushes
the variant name onto the prefix path, then produces a struct literal
(named fields: member/value pairs, types dropped), a call expression
(unnamed fields: positional values, types dropped), or a bare path
(unit). -/
def VariantWithValue.into_syn_expr_with_prefix (v : VariantWithValue) (pre : Path) : Expr :=
  let p := Path.mk (Path.leading_colon pre)
    (Path.segments pre ++ [PathSegment.mk v.ident PathArguments.none])
  match v.fields with
  | .named fs => Expr.structE p (fs.map fun f => (f.ident, f.expr))
  | .unnamed fs => Expr.call (Expr.pathE p) (fs.map fun f => f.expr)
  | .unit => Expr.pathE p

/-! ## Token-level parsers (the `Parse` impls of src/data.rs)

`syn`'s primitive parsers (`Ident`, `Visibility`, `Attribute::parse_outer`,
`Type`, `Expr`) are external library collaborators; they are modelled here
at their documented interface over the token-tree model.  A parser takes
the token list and returns the parsed value together with the unconsumed
suffix, or an error message. -/

/-- Rust's strict keywords: `syn`'s `Ident` parser rejects them. -/
def rustKeywords : List String :=
  ["as", "break", "const", "continue", "crate", "dyn", "else", "enum",
   "extern", "false", "fn", "for", "if", "impl", "in", "let", "loop",
   "match", "mod", "move", "mut", "pub", "ref", "return", "self", "Self",
   "static", "struct", "super", "trait", "true", "type", "unsafe", "use",
   "where", "while"]

/-- Model of `syn::Ident::parse`: the next token must be a non-keyword
identifier. -/
def parseIdentTok : List Tok → Except String (String × List Tok)
  | Tok.ident s :: rest =>
    if rustKeywords.contains s then .error "expected identifier"
    else .ok (s, rest)
  | _ => .error "expected identifier"

/-- Model of `syn::Attribute::parse_outer`: a (possibly empty) run of
`#` followed by a bracketed group; a `#` not followed by brackets is an
error. -/
def parseOuterAttrs : List Tok → Except String (List Attribute × List Tok)
  | Tok.punct '#' :: Tok.group Delim.bracket inner :: rest =>
    match parseOuterAttrs rest with
    | .ok (attrs, r) => .ok ((inner : Attribute) :: attrs, r)
    | .error e => .error e
  | Tok.punct '#' :: _ => .error "expected attribute brackets"
  | rest => .ok ([], rest)

/-- Model of `syn::Visibility::parse`: `pub`, optionally restricted by a
parenthesized `crate`/`self`/`super`/`in path`, otherwise inherited
(consuming nothing).  It never fails on the inputs this crate feeds it. -/
def parseVisibility : List Tok → Visibility × List Tok
  | Tok.ident s :: rest =>
    if s == "pub" then
      match rest with
      | Tok.group Delim.paren inner :: rest' =>
        match inner with
        | [Tok.ident "crate"] => (.restricted inner, rest')
        | [Tok.ident "self"] => (.restricted inner, rest')
        | [Tok.ident "super"] => (.restricted inner, rest')
        | Tok.ident "in" :: _ => (.restricted inner, rest')
        | _ => (.public, Tok.group Delim.paren inner :: rest')
      | _ => (.public, rest)
    else (.inherited, Tok.ident s :: rest)
  | toks => (.inherited, toks)

/-- Is this token the given punctuation character? -/
def isPunct (ch : Char) : Tok → Bool
  | Tok.punct c => c == ch
  | _ => false

/-- Scanner behind the model of `syn::Type::parse` in field position: a
type expression extends until a top-level `,` or `=` (commas and equals
inside `<...>` generic brackets or inside delimited groups belong to the
type).  Returns the consumed run and the unconsumed suffix. -/
def typeScan (depth : Nat) : List Tok → List Tok × List Tok
  | [] => ([], [])
  | t :: rest =>
    if depth == 0 && (isPunct ',' t || isPunct '=' t) then ([], t :: rest)
    else
      let d' := if isPunct '<' t then depth + 1
        else if isPunct '>' t then depth - 1 else depth
      let r := typeScan d' rest
      (t :: r.1, r.2)

/-- Model of `syn::Type::parse` in field position: a nonempty token run
kept opaque (`Ty.verbatim`), cf. §3 of the spec ("opaque type
expression"). -/
def parseTypeToks (toks : List Tok) : Except String (Ty × List Tok) :=
  match typeScan 0 toks with
  | ([], _) => .error "expected type"
  | (c, r) => .ok (Ty.verbatim c, r)

/-- Scanner behind the model of `syn::Expr::parse` in value position: an
expression extends until a top-level `,` (commas inside delimited groups
belong to the expression). -/
def exprScan : List Tok → List Tok × List Tok
  | [] => ([], [])
  | t :: rest =>
    if isPunct ',' t then ([], t :: rest)
    else
      let r := exprScan rest
      (t :: r.1, r.2)

/-- Model of `syn::Expr::parse` in value/discriminant position: a
nonempty token run kept opaque (`Expr.raw`). -/
def parseExprToks (toks : List Tok) : Except String (Expr × List Tok) :=
  match exprScan toks with
  | ([], _) => .error "expected expression"
  | (c, r) => .ok (Expr.raw c, r)

/-- Split a token list at its top-level commas (commas inside delimited
groups are invisible at this level). -/
def splitTopCommas : List Tok → List (List Tok)
  | [] => [[]]
  | Tok.punct ',' :: rest => [] :: splitTopCommas rest
  | t :: rest =>
    match splitTopCommas rest with
    | chunk :: chunks => (t :: chunk) :: chunks
    | [] => [[t]]

/-- Model of `Punctuated::parse_terminated`: entries separated by
top-level commas with an optional trailing comma; each entry parser must
consume its whole chunk (the entry parsers of src/data.rs never consume a
top-level comma, so splitting first is equivalent to `syn`'s parse loop). -/
def parse_terminated (p : List Tok → Except String α) (toks : List Tok) :
    Except String (List α) :=
  if toks.isEmpty then .ok []
  else
    let chunks := splitTopCommas toks
    let chunks :=
      match chunks.getLast? with
      | some [] => chunks.dropLast
      | _ => chunks
    chunks.mapM p

/-- `impl Parse for FieldWithValueNamed` (src/data.rs): outer attributes,
field name, `:`, type, `=`, value expression; the entry must end there. -/
def parseFieldNamed (toks : List Tok) : Except String FieldWithValueNamed :=
  match parseOuterAttrs toks with
  | .error e => .error e
  | .ok (attrs, r1) =>
    match parseIdentTok r1 with
    | .error e => .error e
    | .ok (id, r2) =>
      match r2 with
      | Tok.punct ':' :: r3 =>
        match parseTypeToks r3 with
        | .error e => .error e
        | .ok (ty, r4) =>
          match r4 with
          | Tok.punct '=' :: r5 =>
            match parseExprToks r5 with
            | .error e => .error e
            | .ok (e, r6) =>
              match r6 with
              | [] => .ok ⟨attrs, id, ty, e⟩
              | _ => .error "unexpected token"
          | _ => .error "expected assignment"
      | _ => .error "expected colon"

/-- `impl Parse for FieldWithValueUnnamed` (src/data.rs): outer
attributes, type, `=`, value expression. -/
def parseFieldUnnamed (toks : List Tok) : Except String FieldWithValueUnnamed :=
  match parseOuterAttrs toks with
  | .error e => .error e
  | .ok (attrs, r1) =>
    match parseTypeToks r1 with
    | .error e => .error e
    | .ok (ty, r2) =>
      match r2 with
      | Tok.punct '=' :: r3 =>
        match parseExprToks r3 with
        | .error e => .error e
        | .ok (e, r4) =>
          match r4 with
          | [] => .ok ⟨attrs, ty, e⟩
          | _ => .error "unexpected token"
      | _ => .error "expected assignment"

/-- The field-shape step of `impl Parse for VariantWithValue`
(src/data.rs): peek one token — a braced group selects `Named` (parsing
its contents as a terminated named-field list), a parenthesized group
selects `Unnamed`, anything else (including end of input) selects
`Unit`. -/
def parseFieldsShape : List Tok → Except String (MultipleFieldsWithValues × List Tok)
  | Tok.group Delim.brace inner :: rest =>
    match parse_terminated parseFieldNamed inner with
    | .error e => .error e
    | .ok fs => .ok (.named fs, rest)
  | Tok.group Delim.paren inner :: rest =>
    match parse_terminated parseFieldUnnamed inner with
    | .error e => .error e
    | .ok fs => .ok (.unnamed fs, rest)
  | toks => .ok (.unit, toks)

/-- The discriminant step of `impl Parse for VariantWithValue`
(src/data.rs): if the next token is `=`, parse an expression. -/
def parseDiscriminant : List Tok → Except String (Option Expr × List Tok)
  | Tok.punct '=' :: rest =>
    match parseExprToks rest with
    | .error e => .error e
    | .ok (e, r) => .ok (some e, r)
  | toks => .ok (Option.none, toks)

/-- `impl Parse for VariantWithValue` (src/data.rs): outer attributes, a
visibility (parsed and discarded), the variant name, the field shape by
one-token lookahead, then an optional discriminant. -/
def parseVariantWithValueToks (toks : List Tok) :
    Except String (VariantWithValue × List Tok) :=
  match parseOuterAttrs toks with
  | .error e => .error e
  | .ok (attrs, r1) =>
    match parseIdentTok (parseVisibility r1).2 with
    | .error e => .error e
    | .ok (id, r3) =>
      match parseFieldsShape r3 with
      | .error e => .error e
      | .ok (fields, r4) =>
        match parseDiscriminant r4 with
        | .error e => .error e
        | .ok (disc, r5) => .ok (⟨attrs, id, fields, disc⟩, r5)

/-- `syn::parse2::<VariantWithValue>` as used by the visitor: the whole
token stream must be consumed. -/
def parse2VariantWithValue (toks : List Tok) : Except String VariantWithValue :=
  match parseVariantWithValueToks toks with
  | .ok (v, []) => .ok v
  | .ok (_, _ :: _) => .error "unexpected token"
  | .error e => .error e

/-! ## Target-type resolver (src/lib.rs) -/

/-- `syn::ReturnType`: `Default` is `fn f()`, `Type` is `fn f() -> ty`. -/
inductive ReturnType where
  | default
  | type (ty : Ty)

/-- `get_struct_name_from_return_type` (src/lib.rs): the return type must
be a path type with no qself; its last segment must be named `Result`
with angle-bracketed arguments of length exactly 2; the second argument
must be a type that is a path type with no qself, no leading colon, a
single segment whose arguments are empty; that segment's identifier is
returned. -/
def get_struct_name_from_return_type (return_type : ReturnType) : Option String :=
  match return_type with
  | .type (Ty.path false (Path.mk _ segments)) =>
    match segments.getLast? with
    | some (PathSegment.mk id (PathArguments.angleBracketed args)) =>
      if id == "Result" && args.length == 2 then
        match args[1]? with
        | some (GenericArgument.type (Ty.path false (Path.mk false [PathSegment.mk id2 arguments]))) =>
          if PathArguments.is_empty arguments then some id2 else Option.none
        | _ => Option.none
      else Option.none
    | _ => Option.none
  | _ => Option.none

/-! ## Rendering constructed expressions back to tokens
(`quote::ToTokens`, modelled for the expression shapes the crate
constructs; the paths it constructs never carry generic arguments). -/

def intercalateComma : List (List Tok) → List Tok
  | [] => []
  | [x] => x
  | x :: xs => x ++ Tok.punct ',' :: intercalateComma xs

/-- Token rendering of a path segment; the crate only ever renders
segments without generic arguments. -/
def PathSegment.toTokens : PathSegment → List Tok
  | .mk id PathArguments.none => [Tok.ident id]
  | .mk id _ => [Tok.ident id, Tok.lit "<generic arguments>"]

def intercalateColons : List (List Tok) → List Tok
  | [] => []
  | [x] => x
  | x :: xs => x ++ Tok.punct ':' :: Tok.punct ':' :: intercalateColons xs

/-- Token rendering of a path: optional leading `::`, segments joined by
`::`. -/
def Path.toTokens (p : Path) : List Tok :=
  (if Path.leading_colon p then [Tok.punct ':', Tok.punct ':'] else []) ++
    intercalateColons (List.map (fun s => PathSegment.toTokens s) (Path.segments p))

mutual
/-- `ToTokens` for the expression shapes constructed by
`into_syn_expr_with_prefix` plus verbatim token runs. -/
def Expr.toTokens : Expr → List Tok
  | .structE p fvs => Path.toTokens p ++ [Tok.group Delim.brace (fieldValuesToTokens fvs)]
  | .call f args => Expr.toTokens f ++ [Tok.group Delim.paren (exprListToTokens args)]
  | .pathE p => Path.toTokens p
  | .raw ts => ts

def fieldValuesToTokens : List (String × Expr) → List Tok
  | [] => []
  | [(n, e)] => Tok.ident n :: Tok.punct ':' :: Expr.toTokens e
  | (n, e) :: rest =>
    (Tok.ident n :: Tok.punct ':' :: Expr.toTokens e) ++ Tok.punct ',' :: fieldValuesToTokens rest

def exprListToTokens : List Expr → List Tok
  | [] => []
  | [e] => Expr.toTokens e
  | e :: rest => Expr.toTokens e ++ Tok.punct ',' :: exprListToTokens rest
end

/-! ## The tree walker (src/lib.rs) -/

/-- `syn::Macro`: the invocation path and the token stream between the
delimiters (the bang and delimiter tokens carry no information used by
the crate). -/
structure Macro where
  path : Path
  tokens : List Tok

/-- The `__nothing` helper macro exported by the crate: it returns its
input token stream unchanged. -/
def __nothing (input : List Tok) : List Tok := input

/-- The visitor state of `ErrAsYouGoVisitor` (src/lib.rs). -/
structure ErrAsYouGoVisitor where
  error_name : String
  variants : List Variant
  collection_errors : List (List Tok × String)

/-- `ErrAsYouGoVisitor::new`. -/
def ErrAsYouGoVisitor.new (error_name : String) : ErrAsYouGoVisitor :=
  ⟨error_name, [], []⟩

/-- The `visit_macro_mut` override (src/lib.rs): if the macro's path is
the single identifier `err` or `errgo`, parse its tokens as a
`VariantWithValue`; on success push its declaration projection onto
`variants`, repoint the macro at `errgo::__nothing` and replace its
tokens by the construction expression prefixed with the error name; on
failure push `(tokens, error)` onto `collection_errors`.  Any other
macro is left untouched. -/
def visit_macro_mut (s : ErrAsYouGoVisitor) (i : Macro) : ErrAsYouGoVisitor × Macro :=
  if Path.is_ident i.path "err" || Path.is_ident i.path "errgo" then
    match parse2VariantWithValue i.tokens with
    | .ok variant_with_value =>
      ({ s with variants := s.variants ++ [ VariantWithValue.into_syn_variant variant_with_value] },
       { path := pathOf ["errgo", "__nothing"],
         tokens := Expr.toTokens
           ( VariantWithValue.into_syn_expr_with_prefix variant_with_value
             (Path.fromIdent s.error_name)) })
    | .error e => ({ s with collection_errors := s.collection_errors ++ [(i.tokens, e)] }, i)
  else (s, i)

/-- A function-body syntax tree, as traversed by `syn::visit_mut`: a node
is either a macro invocation or any other node kind (block, closure,
match arm, call, ...) with an ordered list of children.  `syn`'s
generated traversal visits children depth-first in source order and
dispatches `visit_macro_mut` at every `Macro` node. -/
inductive Node where
  | mac (m : Macro)
  | node (kind : String) (children : List Node)

mutual
/-- Depth-first mutating traversal, as generated by `syn::visit_mut`
and driven by `visitor.visit_item_fn_mut(&mut item)` in src/lib.rs. -/
def visitNode (s : ErrAsYouGoVisitor) : Node → ErrAsYouGoVisitor × Node
  | .mac m =>
    let r := visit_macro_mut s m
    (r.1, .mac r.2)
  | .node k children =>
    let r := visitNodes s children
    (r.1, .node k r.2)

def visitNodes (s : ErrAsYouGoVisitor) : List Node → ErrAsYouGoVisitor × List Node
  | [] => (s, [])
  | n :: ns =>
    let r1 := visitNode s n
    let r2 := visitNodes r1.1 ns
    (r2.1, r1.2 :: r2.2)
end

mutual
/-- The marker occurrences of a tree in depth-first encounter order:
macro nodes whose path is the single identifier `err` or `errgo`. -/
def dfMarkers : Node → List Macro
  | .mac m =>
    if Path.is_ident m.path "err" || Path.is_ident m.path "errgo" then [m] else []
  | .node _ children => dfMarkersList children

def dfMarkersList : List Node → List Macro
  | [] => []
  | n :: ns => dfMarkers n ++ dfMarkersList ns
end

/-- The declaration a marker occurrence contributes: its parsed
definition's declaration projection, or nothing when parsing fails. -/
def declOf (m : Macro) : Option Variant :=
  match parse2VariantWithValue m.tokens with
  | .ok v => some ( VariantWithValue.into_syn_variant v)
  | .error _ => Option.none

/-! ## Configuration (src/config.rs) -/

/-- `Config` (src/config.rs). -/
structure Config where
  derives : Option (List Path)
  attributes : Option (List Attribute)
  visibility : Option Visibility

/-- `Config::default()`. -/
def Config.default : Config := ⟨Option.none, Option.none, Option.none⟩

/-- Model of `syn::Path::parse` for a derive entry: `ident (:: ident)*`,
consuming the whole chunk. -/
def parsePathSegsRest : List Tok → Except String (List String)
  | [] => .ok []
  | Tok.punct ':' :: Tok.punct ':' :: Tok.ident s :: rest =>
    match parsePathSegsRest rest with
    | .ok ss => .ok (s :: ss)
    | .error e => .error e
  | _ => .error "expected path"

def parsePathElem (toks : List Tok) : Except String Path :=
  match toks with
  | Tok.ident s :: rest =>
    match parsePathSegsRest rest with
    | .ok ss => .ok (pathOf (s :: ss))
    | .error e => .error e
  | _ => .error "expected path"

/-- One element of the `attributes(...)` list: `Attribute::parse_outer`,
which may yield several attributes, consuming the whole chunk. -/
def parseAttrChunk (toks : List Tok) : Except String (List Attribute) :=
  match parseOuterAttrs toks with
  | .ok (attrs, []) => .ok attrs
  | .ok (_, _ :: _) => .error "unexpected token"
  | .error e => .error e

/-- `Config::parse_stage` (src/config.rs): one `name(...)` option.  The
checks are performed in the source's order: content parse, emptiness,
duplicate; an unrecognized option name is an error.  A stage is the
option's path plus the tokens following it inside the attribute list
(`parenthesized!` requires them to be a single parenthesized group). -/
def Config.parse_stage (c : Config) (stagePath : Path) (rest : List Tok) :
    Except String Config :=
  if Path.is_ident stagePath "derive" then
    match rest with
    | [Tok.group Delim.paren content] =>
      match parse_terminated parsePathElem content with
      | .error e => .error e
      | .ok derives =>
        if derives.isEmpty then .error "`derive` cannot be empty"
        else if c.derives.isSome then .error "`derive` specified more than once"
        else .ok { c with derives := some derives }
    | _ => .error "expected parentheses"
  else if Path.is_ident stagePath "attributes" || Path.is_ident stagePath "attrs"
      || Path.is_ident stagePath "attr" then
    match rest with
    | [Tok.group Delim.paren content] =>
      match parse_terminated parseAttrChunk content with
      | .error e => .error e
      | .ok groups =>
        let attributes := groups.flatten
        if attributes.isEmpty then .error "`attributes` cannot be empty"
        else if c.attributes.isSome then .error "`attributes` specified more than once"
        else .ok { c with attributes := some attributes }
    | _ => .error "expected parentheses"
  else if Path.is_ident stagePath "visibility" || Path.is_ident stagePath "vis" then
    match rest with
    | [Tok.group Delim.paren content] =>
      if c.visibility.isSome then .error "`visibility` specified more than once"
      else
        match parseVisibility content with
        | (v, []) => .ok { c with visibility := some v }
        | (_, _ :: _) => .error "unexpected token"
    | _ => .error "expected parentheses"
  else .error "unexpected argument"

/-- `impl Parse for Config` (src/config.rs): fold `parse_stage` over the
comma-separated option stages (`syn::meta::parser` splits the attribute
arguments into path-plus-content stages). -/
def Config.parseStages : Config → List (Path × List Tok) → Except String Config
  | c, [] => .ok c
  | c, (p, rest) :: stages =>
    match Config.parse_stage c p rest with
    | .error e => .error e
    | .ok c' => Config.parseStages c' stages

/-! ## The `errgo` entry point (src/lib.rs) -/

/-- `syn::ItemFn`, restricted to what `errgo` reads: visibility, the
signature's return type, and the traversable body. -/
structure ItemFn where
  vis : Visibility
  output : ReturnType
  body : Node

/-- Where a diagnostic is anchored: the function signature (the
resolution-failure `emit_error!`) or a marker occurrence's token stream
(the collection errors). -/
inductive DiagAnchor where
  | sig
  | tokens (ts : List Tok)

/-- A `proc_macro_error` diagnostic: anchor plus message. -/
def Diagnostic := DiagAnchor × String

/-- The synthesized declaration assembled by the final `quote!` block of
`errgo` (src/lib.rs): the optional `#[derive(...)]` attribute, the
visibility, the enum name and its variants.  Note that the assembly reads
only `config.derives` and `config.visibility`; `config.attributes` does
not appear in the `quote!` block. -/
structure EnumDecl where
  derives : Option (List Path)
  vis : Visibility
  name : String
  variants : List Variant

/-- The output of one `errgo` invocation: either the compile error
produced by `parse_macro_input!` when the configuration fails to parse
(nothing else is emitted and the function body is never walked), or the
emitted diagnostics, the optional synthesized enum, and the (possibly
rewritten) function item. -/
inductive ErrgoOutput where
  | configError (msg : String)
  | emitted (diagnostics : List Diagnostic) (decl : Option EnumDecl) (item : ItemFn)

/-- The body of `errgo` after configuration parsing (src/lib.rs): resolve
the target type from the return type; on failure emit exactly one
diagnostic anchored at the signature and return the item unmodified with
no enum; on success run the visitor over the item, emit one diagnostic
per collection error, and assemble the enum and the rewritten item. -/
def errgo_with_config (config : Config) (item : ItemFn) : ErrgoOutput :=
  match get_struct_name_from_return_type item.output with
  | Option.none =>
    .emitted
      [(DiagAnchor.sig,
        "unsupported return type - function must return a `Result<_, SomeConcreteErr>`")]
      Option.none item
  | some error_name =>
    let error_vis := config.visibility.getD item.vis
    let r := visitNode (ErrAsYouGoVisitor.new error_name) item.body
    .emitted
      (r.1.collection_errors.map fun p => ((DiagAnchor.tokens p.1, p.2) : Diagnostic))
      (some ⟨config.derives, error_vis, error_name, r.1.variants⟩)
      { item with body := r.2 }

/-- The `errgo` entry point (src/lib.rs): parse the configuration from
the attribute arguments (aborting with a compile error before anything
else happens when it fails), then run the transform. -/
def errgo_entry (stages : List (Path × List Tok)) (item : ItemFn) : ErrgoOutput :=
  match Config.parseStages Config.default stages with
  | .error e => .configError e
  | .ok config => errgo_with_config config item

/-! ## Observations used by the claims -/

/-- The ordered field list of a declaration fragment. -/
def Fields.fieldList : Fields → List Field
  | .named fs => fs
  | .unnamed fs => fs
  | .unit => []

/-- The declared field names, in declaration order (`Option.none` for a
positional field). -/
def Variant.declNames (v : Variant) : List (Option String) :=
  (Fields.fieldList v.fields).map (fun f => f.ident)

/-- The declared field types, in declaration order. -/
def Variant.declTypes (v : Variant) : List Ty :=
  (Fields.fieldList v.fields).map (fun f => f.ty)

/-- The field values of a construction expression, in order: a struct
literal's field values, a call's arguments, nothing for a bare path. -/
def Expr.constructionValues : Expr → List Expr
  | .structE _ fvs => fvs.map (fun fv => fv.2)
  | .call _ args => args
  | _ => []

/-- The field names of a construction expression, in order
(`Option.none` for a positional argument). -/
def Expr.constructionNames : Expr → List (Option String)
  | .structE _ fvs => fvs.map (fun fv => some fv.1)
  | .call _ args => args.map (fun _ => Option.none)
  | _ => []

/-- The field types of a parsed definition, in source order. -/
def VariantWithValue.srcTypes (v : VariantWithValue) : List Ty :=
  match v.fields with
  | .named fs => fs.map (fun f => f.ty)
  | .unnamed fs => fs.map (fun f => f.ty)
  | .unit => []

/-- The field values of a parsed definition, in source order. -/
def VariantWithValue.srcValues (v : VariantWithValue) : List Expr :=
  match v.fields with
  | .named fs => fs.map (fun f => f.expr)
  | .unnamed fs => fs.map (fun f => f.expr)
  | .unit => []

/-- Replace every field value of a definition by a dummy, leaving
everything else (names, types, metadata, discriminant) unchanged. -/
def eraseFieldValues (v : VariantWithValue) : VariantWithValue :=
  { v with
    fields :=
      match v.fields with
      | .named fs => .named (fs.map fun f => { f with expr := Expr.raw [] })
      | .unnamed fs => .unnamed (fs.map fun f => { f with expr := Expr.raw [] })
      | .unit => .unit }

/-- Replace every field type of a definition by a dummy, leaving
everything else unchanged. -/
def eraseFieldTypes (v : VariantWithValue) : VariantWithValue :=
  { v with
    fields :=
      match v.fields with
      | .named fs => .named (fs.map fun f => { f with ty := Ty.verbatim [] })
      | .unnamed fs => .unnamed (fs.map fun f => { f with ty := Ty.verbatim [] })
      | .unit => .unit }

/-- C1 — Shape round-trip.  For every Variant Definition, whatever its
field shape, the declaration fragment produced by `into_syn_variant` and
the construction expression produced by `into_syn_expr_with_prefix` have
the same field count and the same field order (their ordered name lists
coincide); the declaration carries exactly the definition's field types in
order and the expression exactly the definition's field values in order;
the declaration is unchanged when the field values are erased (values
appear only in the expression) and the expression is unchanged when the
field types are erased (types appear only in the declaration). -/
theorem c1_shape_round_trip (v : VariantWithValue) (pre : Path) :
    Variant.declNames ( VariantWithValue.into_syn_variant v)
        = Expr.constructionNames ( VariantWithValue.into_syn_expr_with_prefix v pre)
    ∧ (Variant.declTypes ( VariantWithValue.into_syn_variant v)).length
        = (Expr.constructionValues ( VariantWithValue.into_syn_expr_with_prefix v pre)).length
    ∧ Variant.declTypes ( VariantWithValue.into_syn_variant v) = VariantWithValue.srcTypes v
    ∧ Expr.constructionValues ( VariantWithValue.into_syn_expr_with_prefix v pre)
        = VariantWithValue.srcValues v
    ∧ VariantWithValue.into_syn_variant (eraseFieldValues v)
        = VariantWithValue.into_syn_variant v
    ∧ VariantWithValue.into_syn_expr_with_prefix (eraseFieldTypes v) pre
        = VariantWithValue.into_syn_expr_with_prefix v pre := by
  obtain ⟨attrs, id, fields, disc⟩ := v
  cases fields <;>
    simp [ VariantWithValue.into_syn_variant, VariantWithValue.into_syn_expr_with_prefix,
      Variant.declNames, Variant.declTypes, Expr.constructionNames, Expr.constructionValues,
      VariantWithValue.srcTypes, VariantWithValue.srcValues, eraseFieldValues, eraseFieldTypes,
      MultipleFieldsWithValues.toFields, Fields.fieldList, FieldWithValueNamed.toField,
      FieldWithValueUnnamed.toField, List.map_map, Function.comp]

/-! ## C5 — the target-type resolver -/

/-- The resolver contract exactly as the claim words it: the return type
is a path type whose last segment is named `Result` (leading path
qualification ignored) with exactly two *type* arguments, and the second
type argument is a single-segment, unqualified path type with no generic
arguments; that segment's identifier is returned. -/
def resolver_claim_condition (return_type : ReturnType) : Option String :=
  match return_type with
  | .type (Ty.path false (Path.mk _ segments)) =>
    match segments.getLast? with
    | some (PathSegment.mk id (PathArguments.angleBracketed args)) =>
      if id == "Result" then
        match args with
        | [GenericArgument.type _,
           GenericArgument.type (Ty.path false (Path.mk false [PathSegment.mk id2 arguments]))] =>
          if PathArguments.is_empty arguments then some id2 else Option.none
        | _ => Option.none
      else Option.none
    | _ => Option.none
  | _ => Option.none

/-- The amended resolver contract: as the claim, but with exactly two
*generic* arguments of any kind, of which the second must be a type that
is a single-segment, unqualified path with no generic arguments (the
first argument may also be, e.g., a lifetime). -/
def resolver_amended_condition (return_type : ReturnType) : Option String :=
  match return_type with
  | .type (Ty.path false (Path.mk _ segments)) =>
    match segments.getLast? with
    | some (PathSegment.mk id (PathArguments.angleBracketed args)) =>
      if id == "Result" then
        match args with
        | [_, GenericArgument.type (Ty.path false (Path.mk false [PathSegment.mk id2 arguments]))] =>
          if PathArguments.is_empty arguments then some id2 else Option.none
        | _ => Option.none
      else Option.none
    | _ => Option.none
  | _ => Option.none

/-- C5 counterexample.  The return type `Result<'a, E>` — whose first
generic argument is a lifetime, so it does *not* have two type
arguments — is nevertheless resolved to `E` by
`get_struct_name_from_return_type`, so the resolver does not return
`some` *exactly* on the claim's shape. -/
theorem c5_counterexample :
    get_struct_name_from_return_type
        (ReturnType.type (Ty.path false (Path.mk false
          [PathSegment.mk "Result" (PathArguments.angleBracketed
            [GenericArgument.lifetime "a",
             GenericArgument.type (Ty.path false (Path.mk false
               [PathSegment.mk "E" PathArguments.none]))])])))
      = some "E"
    ∧ resolver_claim_condition
        (ReturnType.type (Ty.path false (Path.mk false
          [PathSegment.mk "Result" (PathArguments.angleBracketed
            [GenericArgument.lifetime "a",
             GenericArgument.type (Ty.path false (Path.mk false
               [PathSegment.mk "E" PathArguments.none]))])])))
      = Option.none := by
  exact ⟨rfl, rfl⟩

/-- C5 (amended) — the resolver returns `some name` exactly when the
return type is a path type (no qself) whose last segment is named
`Result` with exactly two generic arguments, and whose second generic
argument is a type that is a single-segment, unqualified path with no
generic arguments; the returned name is that segment's identifier, and
every other shape yields `Option.none`. -/
theorem c5_resolver_exact (rt : ReturnType) :
    get_struct_name_from_return_type rt = resolver_amended_condition rt := by
  cases rt with
  | default => rfl
  | type ty =>
    cases ty with
    | verbatim ts => rfl
    | path q p =>
      cases q with
      | true => rfl
      | false =>
        obtain ⟨lc, segments⟩ := p
        unfold get_struct_name_from_return_type resolver_amended_condition
        rcases h : segments.getLast? with _ | ⟨id, args⟩
        · simp only [h]
        · cases args with
          | none => simp only [h]
          | parenthesized ts => simp only [h]
          | angleBracketed gas =>
            simp only [h]
            by_cases hid : id = "Result"
            · subst hid
              match gas with
              | [] => simp
              | [a] => simp
              | a :: b :: c :: rest => simp [List.length]
              | [a, b] =>
                simp only [List.length_cons, List.length_nil]
                norm_num
                cases b with
                | lifetime n => rfl
                | other ts => rfl
                | type t =>
                  cases t with
                  | verbatim ts => rfl
                  | path q2 p2 =>
                    cases q2 with
                    | true => rfl
                    | false =>
                      obtain ⟨lc2, segs2⟩ := p2
                      cases lc2 with
                      | true => rfl
                      | false =>
                        match segs2 with
                        | [] => rfl
                        | [PathSegment.mk id2 arguments] => rfl
                        | PathSegment.mk i1 a1 :: s2 :: rest => rfl
            · simp [hid]

/-! ## C2 — fatal resolution failure -/

/-- C2 — For every function whose declared result type does not resolve
(under a successfully parsed configuration), `errgo` emits exactly one
diagnostic (anchored at the signature), collects zero declarations (no
enum is assembled at all), performs zero rewrites and returns the
function item unmodified; the tree walker is never run. -/
theorem c2_unresolved_target (stages : List (Path × List Tok)) (item : ItemFn)
    (config : Config)
    (hc : Config.parseStages Config.default stages = Except.ok config)
    (hr : get_struct_name_from_return_type item.output = Option.none) :
    errgo_entry stages item =
      ErrgoOutput.emitted
        [(DiagAnchor.sig,
          "unsupported return type - function must return a `Result<_, SomeConcreteErr>`")]
        Option.none item := by
  unfold errgo_entry
  rw [hc]
  unfold errgo_with_config
  rw [hr]

/-- C2 witness: a function with no return type (`fn bar() {}`, the shape
of trybuild/fail/invalid_signature.rs) under the empty configuration. -/
theorem c2_witness :
    errgo_entry [] ⟨Visibility.inherited, ReturnType.default, Node.node "block" []⟩ =
      ErrgoOutput.emitted
        [(DiagAnchor.sig,
          "unsupported return type - function must return a `Result<_, SomeConcreteErr>`")]
        Option.none ⟨Visibility.inherited, ReturnType.default, Node.node "block" []⟩ :=
  c2_unresolved_target [] ⟨Visibility.inherited, ReturnType.default, Node.node "block" []⟩
    Config.default rfl rfl

/-! ## C3 — behaviour on a marker occurrence that fails to parse -/

/-- The "harmless passthrough of its original contents" the claim says a
failed occurrence is replaced with: the occurrence repointed at the no-op
`errgo::__nothing` macro, keeping its original tokens (this is exactly
the wrapper the success path uses). -/
def claimPassthrough (m : Macro) : Macro :=
  ⟨pathOf ["errgo", "__nothing"], m.tokens⟩

/-- C3 counterexample.  A marker occurrence `err!(:)` whose contents fail
to parse is left completely untouched by the visitor — in particular it
is *not* replaced with the harmless passthrough of its original contents
that the claim describes (its path still is the marker path `err`, not
`errgo::__nothing`). -/
theorem c3_counterexample :
    (visit_macro_mut (ErrAsYouGoVisitor.new "E") ⟨pathOf ["err"], [Tok.punct ':']⟩).2
        = ⟨pathOf ["err"], [Tok.punct ':']⟩
    ∧ (visit_macro_mut (ErrAsYouGoVisitor.new "E") ⟨pathOf ["err"], [Tok.punct ':']⟩).2
        ≠ claimPassthrough ⟨pathOf ["err"], [Tok.punct ':']⟩ := by
  refine ⟨rfl, fun h => ?_⟩
  have h2 : (⟨pathOf ["err"], [Tok.punct ':']⟩ : Macro)
      = claimPassthrough ⟨pathOf ["err"], [Tok.punct ':']⟩ := h
  have hlen := congrArg (fun mm : Macro => (Path.segments mm.path).length) h2
  simp [claimPassthrough, pathOf, Path.segments] at hlen

/-- C3 (amended) — for every marker occurrence whose contents fail to
parse as a Variant Definition, the tree walker leaves the occurrence
unchanged (original path and original contents), appends exactly one
diagnostic carrying that occurrence's content tokens, appends no
declaration for it, and continues traversing the remaining occurrences
from the updated state instead of stopping at the first error. -/
theorem c3_failed_occurrence (s : ErrAsYouGoVisitor) (m : Macro) (e : String)
    (ns : List Node)
    (hm : (Path.is_ident m.path "err" || Path.is_ident m.path "errgo") = true)
    (hp : parse2VariantWithValue m.tokens = Except.error e) :
    visitNodes s (Node.mac m :: ns) =
      ((visitNodes { s with collection_errors := s.collection_errors ++ [(m.tokens, e)] } ns).1,
       Node.mac m ::
         (visitNodes { s with collection_errors := s.collection_errors ++ [(m.tokens, e)] } ns).2) := by
  have hv : visit_macro_mut s m =
      ({ s with collection_errors := s.collection_errors ++ [(m.tokens, e)] }, m) := by
    unfold visit_macro_mut
    rw [hm]
    simp [hp]
  simp [visitNodes, visitNode, hv]

/-- C3 witness: the failing occurrence `err!(:)` followed by a second,
well-formed marker occurrence; the traversal records the diagnostic and
carries on. -/
theorem c3_witness :
    visitNodes (ErrAsYouGoVisitor.new "E")
        [Node.mac ⟨pathOf ["err"], [Tok.punct ':']⟩,
         Node.mac ⟨pathOf ["err"], [Tok.ident "Bar"]⟩] =
      ((visitNodes
          { ErrAsYouGoVisitor.new "E" with
            collection_errors := (ErrAsYouGoVisitor.new "E").collection_errors
              ++ [([Tok.punct ':'], "expected identifier")] }
          [Node.mac ⟨pathOf ["err"], [Tok.ident "Bar"]⟩]).1,
       Node.mac ⟨pathOf ["err"], [Tok.punct ':']⟩ ::
         (visitNodes
            { ErrAsYouGoVisitor.new "E" with
              collection_errors := (ErrAsYouGoVisitor.new "E").collection_errors
                ++ [([Tok.punct ':'], "expected identifier")] }
            [Node.mac ⟨pathOf ["err"], [Tok.ident "Bar"]⟩]).2) :=
  c3_failed_occurrence (ErrAsYouGoVisitor.new "E") ⟨pathOf ["err"], [Tok.punct ':']⟩
    "expected identifier" [Node.mac ⟨pathOf ["err"], [Tok.ident "Bar"]⟩] rfl rfl

/-! ## C4 — the `attributes` option is parsed but dropped (code bug) -/

/-- C4 — code bug.  The assembled output of `errgo` is entirely
independent of the parsed `attributes` configuration: two configurations
agreeing on `derives` and `visibility` produce identical output whatever
their `attributes` fields hold — even though the configuration parser
does parse and validate the `attributes`/`attrs`/`attr` option (second
conjunct), and the macro's own documentation says those attributes are
passed through to the top of the generated type.  The final `quote!`
block of src/lib.rs never mentions `config.attributes`. -/
theorem c4_attributes_dropped :
    (∀ (c₁ c₂ : Config) (item : ItemFn),
        c₁.derives = c₂.derives → c₁.visibility = c₂.visibility →
        errgo_with_config c₁ item = errgo_with_config c₂ item)
    ∧ Config.parseStages Config.default
        [(pathOf ["attributes"],
          [Tok.group Delim.paren [Tok.punct '#', Tok.group Delim.bracket [Tok.ident "repr"]]])]
        = Except.ok ⟨Option.none, some [[Tok.ident "repr"]], Option.none⟩ := by
  constructor
  · intro c₁ c₂ item hd hv
    unfold errgo_with_config
    cases h : get_struct_name_from_return_type item.output with
    | none => rfl
    | some name => rw [hd, hv]
  · rfl

/-- C4 witness: with the parsed `attributes(#[repr])` configuration and
with the empty configuration, the emitted output for the same function is
byte-for-byte identical — the attributes are dropped. -/
theorem c4_witness :
    errgo_with_config ⟨Option.none, some [[Tok.ident "repr"]], Option.none⟩
        ⟨Visibility.inherited,
         ReturnType.type (Ty.path false (Path.mk false
           [PathSegment.mk "Result" (PathArguments.angleBracketed
             [GenericArgument.type (Ty.verbatim [Tok.group Delim.paren []]),
              GenericArgument.type (Ty.path false (Path.mk false
                [PathSegment.mk "FooError" PathArguments.none]))])])),
         Node.mac ⟨pathOf ["err"], [Tok.ident "Bar"]⟩⟩ =
      errgo_with_config Config.default
        ⟨Visibility.inherited,
         ReturnType.type (Ty.path false (Path.mk false
           [PathSegment.mk "Result" (PathArguments.angleBracketed
             [GenericArgument.type (Ty.verbatim [Tok.group Delim.paren []]),
              GenericArgument.type (Ty.path false (Path.mk false
                [PathSegment.mk "FooError" PathArguments.none]))])])),
         Node.mac ⟨pathOf ["err"], [Tok.ident "Bar"]⟩⟩ :=
  c4_attributes_dropped.1 _ _ _ rfl rfl

/-! ## C10 — the marker predicate and the no-op replacement -/

/-- C10 — a macro node is treated as a marker exactly when its path is
the single identifier `err` or `errgo`: any other macro is left untouched
with no state change (first conjunct), while a successfully parsed marker
is repointed at the two-segment path `errgo::__nothing` (second
conjunct).  That path never satisfies the single-identifier predicate for
any name (third conjunct), so visiting a rewritten occurrence again
changes nothing (fourth conjunct); and the `__nothing` macro expands to
its input unchanged (fifth conjunct). -/
theorem c10_marker_predicate :
    (∀ (s : ErrAsYouGoVisitor) (m : Macro),
        (Path.is_ident m.path "err" || Path.is_ident m.path "errgo") = false →
        visit_macro_mut s m = (s, m))
    ∧ (∀ (s : ErrAsYouGoVisitor) (m : Macro) (v : VariantWithValue),
        (Path.is_ident m.path "err" || Path.is_ident m.path "errgo") = true →
        parse2VariantWithValue m.tokens = Except.ok v →
        ((visit_macro_mut s m).2).path = pathOf ["errgo", "__nothing"])
    ∧ (∀ name, Path.is_ident (pathOf ["errgo", "__nothing"]) name = false)
    ∧ (∀ (s s₂ : ErrAsYouGoVisitor) (m : Macro) (v : VariantWithValue),
        (Path.is_ident m.path "err" || Path.is_ident m.path "errgo") = true →
        parse2VariantWithValue m.tokens = Except.ok v →
        visit_macro_mut s₂ ((visit_macro_mut s m).2) = (s₂, (visit_macro_mut s m).2))
    ∧ (∀ ts, __nothing ts = ts) := by
  refine ⟨?_, ?_, ?_, ?_, fun ts => rfl⟩
  · intro s m hm
    unfold visit_macro_mut
    rw [hm]
    rfl
  · intro s m v hm hp
    unfold visit_macro_mut
    rw [hm]
    simp [hp]
  · intro name
    rfl
  · intro s s₂ m v hm hp
    have h2 : ((visit_macro_mut s m).2).path = pathOf ["errgo", "__nothing"] := by
      unfold visit_macro_mut
      rw [hm]
      simp [hp]
    generalize (visit_macro_mut s m).2 = mm at h2 ⊢
    unfold visit_macro_mut
    rw [h2]
    rfl

/-- C10 witness: a non-marker macro `other!()` is untouched; the marker
`err!(Foo)` is repointed at `errgo::__nothing`, which is not a marker, so
a second visit leaves the rewritten node unchanged; `__nothing` is the
identity on tokens. -/
theorem c10_witness :
    visit_macro_mut (ErrAsYouGoVisitor.new "E") ⟨pathOf ["other"], []⟩
        = (ErrAsYouGoVisitor.new "E", ⟨pathOf ["other"], []⟩)
    ∧ ((visit_macro_mut (ErrAsYouGoVisitor.new "E") ⟨pathOf ["err"], [Tok.ident "Foo"]⟩).2).path
        = pathOf ["errgo", "__nothing"]
    ∧ Path.is_ident (pathOf ["errgo", "__nothing"]) "err" = false
    ∧ visit_macro_mut (ErrAsYouGoVisitor.new "E2")
          ((visit_macro_mut (ErrAsYouGoVisitor.new "E") ⟨pathOf ["err"], [Tok.ident "Foo"]⟩).2)
        = (ErrAsYouGoVisitor.new "E2",
           (visit_macro_mut (ErrAsYouGoVisitor.new "E") ⟨pathOf ["err"], [Tok.ident "Foo"]⟩).2)
    ∧ __nothing [Tok.ident "x"] = [Tok.ident "x"] := by
  obtain ⟨h1, h2, h3, h4, h5⟩ := c10_marker_predicate
  exact ⟨h1 _ _ rfl,
    h2 _ _ ⟨[], "Foo", MultipleFieldsWithValues.unit, Option.none⟩ rfl rfl,
    h3 "err",
    h4 _ _ _ ⟨[], "Foo", MultipleFieldsWithValues.unit, Option.none⟩ rfl rfl,
    h5 _⟩

/-! ## C7 — collection order -/

theorem filterMap_length_all_some {α β : Type} (f : α → Option β) :
    ∀ l : List α, (∀ a ∈ l, (f a).isSome) → (l.filterMap f).length = l.length := by
  intro l h
  induction l with
  | nil => rfl
  | cons a l ih =>
    have ha := h a (List.mem_cons_self a l)
    cases hf : f a with
    | none => rw [hf] at ha; simp at ha
    | some b =>
      simp only [List.filterMap_cons, hf, List.length_cons]
      rw [ih fun x hx => h x (List.mem_cons_of_mem a hx)]

mutual
/-- State characterization of the traversal: the variants collected by a
run are the prior variants followed by the declarations of the tree's
markers in depth-first order. -/
theorem visitNode_variants (n : Node) (s : ErrAsYouGoVisitor) :
    ((visitNode s n).1).variants = s.variants ++ List.filterMap declOf (dfMarkers n) := by
  cases n with
  | mac m =>
    show (visit_macro_mut s m).1.variants = _
    unfold dfMarkers
    cases hm : (Path.is_ident m.path "err" || Path.is_ident m.path "errgo") with
    | false => simp [visit_macro_mut, hm]
    | true =>
      cases hp : parse2VariantWithValue m.tokens with
      | ok v => simp [visit_macro_mut, hm, hp, declOf]
      | error e => simp [visit_macro_mut, hm, hp, declOf]
  | node k cs =>
    show (visitNodes s cs).1.variants = _
    unfold dfMarkers
    exact visitNodes_variants cs s

theorem visitNodes_variants (ns : List Node) (s : ErrAsYouGoVisitor) :
    ((visitNodes s ns).1).variants = s.variants ++ List.filterMap declOf (dfMarkersList ns) := by
  cases ns with
  | nil => simp [visitNodes, dfMarkersList]
  | cons n ns =>
    show ((visitNodes (visitNode s n).1 ns).1).variants = _
    unfold dfMarkersList
    rw [visitNodes_variants ns (visitNode s n).1, visitNode_variants n s,
      List.filterMap_append, List.append_assoc]
end

/-- C7 — multi-occurrence collection.  For every function body, the
collected declaration set after one traversal is exactly the
depth-first list of marker occurrences, each successfully parsed one
contributing its declaration in encounter order (occurrences are never
merged or deduplicated — the list is a `filterMap`, not a set); in
particular when all markers parse successfully the set holds exactly one
entry per marker. -/
theorem c7_collection_order (name : String) (body : Node) :
    ((visitNode (ErrAsYouGoVisitor.new name) body).1).variants
        = List.filterMap declOf (dfMarkers body)
    ∧ ((∀ m ∈ dfMarkers body, (parse2VariantWithValue m.tokens).isOk = true) →
        (((visitNode (ErrAsYouGoVisitor.new name) body).1).variants).length
          = (dfMarkers body).length) := by
  have hmain : ((visitNode (ErrAsYouGoVisitor.new name) body).1).variants
      = List.filterMap declOf (dfMarkers body) := by
    simpa [ErrAsYouGoVisitor.new] using visitNode_variants body (ErrAsYouGoVisitor.new name)
  refine ⟨hmain, fun h => ?_⟩
  rw [hmain]
  apply filterMap_length_all_some
  intro m hm
  have hok := h m hm
  unfold declOf
  cases hp : parse2VariantWithValue m.tokens with
  | ok v => rfl
  | error e => rw [hp] at hok; simp [Except.isOk, Except.toBool] at hok

/-- C7 witness: a body with two markers both named `Foo` (one nested
inside a closure node, with a different field shape): both are collected,
in encounter order, without merging. -/
theorem c7_witness :
    ((visitNode (ErrAsYouGoVisitor.new "E")
        (Node.node "fn" [
          Node.mac ⟨pathOf ["err"], [Tok.ident "Foo"]⟩,
          Node.node "closure" [
            Node.mac ⟨pathOf ["err"],
              [Tok.ident "Foo",
               Tok.group Delim.paren [Tok.ident "u8", Tok.punct '=', Tok.lit "1"]]⟩]])).1).variants
      = [⟨[], "Foo", Fields.unit, Option.none⟩,
         ⟨[], "Foo", Fields.unnamed [⟨[], Option.none, Ty.verbatim [Tok.ident "u8"]⟩], Option.none⟩]
    ∧ (((visitNode (ErrAsYouGoVisitor.new "E")
        (Node.node "fn" [
          Node.mac ⟨pathOf ["err"], [Tok.ident "Foo"]⟩,
          Node.node "closure" [
            Node.mac ⟨pathOf ["err"],
              [Tok.ident "Foo",
               Tok.group Delim.paren [Tok.ident "u8", Tok.punct '=', Tok.lit "1"]]⟩]])).1).variants).length
      = (dfMarkers
          (Node.node "fn" [
            Node.mac ⟨pathOf ["err"], [Tok.ident "Foo"]⟩,
            Node.node "closure" [
              Node.mac ⟨pathOf ["err"],
                [Tok.ident "Foo",
                 Tok.group Delim.paren [Tok.ident "u8", Tok.punct '=', Tok.lit "1"]]⟩]])).length := by
  refine ⟨Eq.trans ((c7_collection_order "E" _).1) (by rfl), ?_⟩
  exact (c7_collection_order "E" _).2 (by decide)

/-! ## C8 — configuration options -/

/-- The option a configuration stage addresses: `derive`, the
`attributes`/`attrs`/`attr` aliases, the `visibility`/`vis` aliases, or
none for an unrecognized name. -/
def stageKind (p : Path) : Option String :=
  if Path.is_ident p "derive" then some "derive"
  else if Path.is_ident p "attributes" || Path.is_ident p "attrs" || Path.is_ident p "attr" then
    some "attributes"
  else if Path.is_ident p "visibility" || Path.is_ident p "vis" then some "visibility"
  else Option.none

/-- Whether the configuration field for option `k` is already set. -/
def fieldSome (c : Config) (k : String) : Bool :=
  if k == "derive" then c.derives.isSome
  else if k == "attributes" then c.attributes.isSome
  else if k == "visibility" then c.visibility.isSome
  else false

/-- A successful `parse_stage` addresses a recognized option whose field
was previously unset, and sets exactly that field. -/
theorem parse_stage_ok_characterization (c c' : Config) (p : Path) (r : List Tok)
    (h : Config.parse_stage c p r = Except.ok c') :
    ∃ k, stageKind p = some k ∧ fieldSome c k = false ∧
      (∀ k', fieldSome c' k' = (fieldSome c k' || (k' == k))) := by
  unfold Config.parse_stage at h
  by_cases h1 : Path.is_ident p "derive" = true
  · rw [if_pos h1] at h
    refine ⟨"derive", by unfold stageKind; rw [if_pos h1], ?_⟩
    split at h
    case _ content =>
      split at h
      case _ e heq => simp at h
      case _ ds heq =>
        split_ifs at h with hemp hdup
        injection h with h'
        subst h'
        refine ⟨by simp [fieldSome]; simpa using hdup, fun k' => ?_⟩
        unfold fieldSome
        split_ifs with e1 e2 e3 <;> simp_all
    case _ => simp at h
  · rw [if_neg h1] at h
    by_cases h2 : (Path.is_ident p "attributes" || Path.is_ident p "attrs"
        || Path.is_ident p "attr") = true
    · rw [if_pos h2] at h
      refine ⟨"attributes", by unfold stageKind; rw [if_neg h1, if_pos h2], ?_⟩
      split at h
      case _ content =>
        split at h
        case _ e heq => simp at h
        case _ groups heq =>
          dsimp only at h
          split_ifs at h with hemp hdup
          injection h with h'
          subst h'
          refine ⟨by simp [fieldSome]; simpa using hdup, fun k' => ?_⟩
          unfold fieldSome
          split_ifs with e1 e2 e3 <;> simp_all
      case _ => simp at h
    · rw [if_neg h2] at h
      by_cases h3 : (Path.is_ident p "visibility" || Path.is_ident p "vis") = true
      · rw [if_pos h3] at h
        refine ⟨"visibility", by unfold stageKind; rw [if_neg h1, if_neg h2, if_pos h3], ?_⟩
        split at h
        case _ content =>
          split_ifs at h with hdup
          split at h
          case _ v heq =>
            injection h with h'
            subst h'
            refine ⟨by simp [fieldSome]; simpa using hdup, fun k' => ?_⟩
            unfold fieldSome
            split_ifs with e1 e2 e3 <;> simp_all
          case _ => simp at h
        case _ => simp at h
      · rw [if_neg h3] at h
        simp at h

theorem except_isOk_false {ε α : Type} (x : Except ε α) (h : x.isOk = false) :
    ∃ e, x = .error e := by
  cases x with
  | error e => exact ⟨e, rfl⟩
  | ok a => simp [Except.isOk, Except.toBool] at h

theorem parse_stage_dup_err (c : Config) (p : Path) (r : List Tok) (k : String)
    (hk : stageKind p = some k) (hdup : fieldSome c k = true) :
    (Config.parse_stage c p r).isOk = false := by
  cases h : Config.parse_stage c p r with
  | error e => rfl
  | ok c' =>
    obtain ⟨k0, hk0, hfalse, _⟩ := parse_stage_ok_characterization c c' p r h
    rw [hk] at hk0
    injection hk0 with hkk
    subst hkk
    rw [hdup] at hfalse
    exact Bool.noConfusion hfalse

theorem parse_stage_unknown_err (c : Config) (p : Path) (r : List Tok)
    (hk : stageKind p = Option.none) :
    (Config.parse_stage c p r).isOk = false := by
  cases h : Config.parse_stage c p r with
  | error e => rfl
  | ok c' =>
    obtain ⟨k0, hk0, _, _⟩ := parse_stage_ok_characterization c c' p r h
    rw [hk] at hk0
    exact Option.noConfusion hk0

theorem parse_stage_mono (c c' : Config) (p : Path) (r : List Tok) (k : String)
    (h : Config.parse_stage c p r = Except.ok c') (hk : fieldSome c k = true) :
    fieldSome c' k = true := by
  obtain ⟨k0, _, _, hall⟩ := parse_stage_ok_characterization c c' p r h
  rw [hall k, hk]
  rfl

theorem parse_stage_sets (c c' : Config) (p : Path) (r : List Tok) (k : String)
    (h : Config.parse_stage c p r = Except.ok c') (hk : stageKind p = some k) :
    fieldSome c' k = true := by
  obtain ⟨k0, hk0, _, hall⟩ := parse_stage_ok_characterization c c' p r h
  rw [hk] at hk0
  injection hk0 with hkk
  subst hkk
  rw [hall k]
  simp

/-- Once an option's field is set, any later stage addressing the same
option makes the whole configuration parse fail. -/
theorem parseStages_after_set (mid : List (Path × List Tok)) :
    ∀ (c : Config) (k : String), fieldSome c k = true →
      ∀ (p₂ : Path) (r₂ : List Tok) (post : List (Path × List Tok)),
        stageKind p₂ = some k →
        (Config.parseStages c (mid ++ (p₂, r₂) :: post)).isOk = false := by
  induction mid with
  | nil =>
    intro c k hk p₂ r₂ post hk2
    show (Config.parseStages c ((p₂, r₂) :: post)).isOk = false
    unfold Config.parseStages
    cases h : Config.parse_stage c p₂ r₂ with
    | error e => rfl
    | ok c' =>
      have hbad := parse_stage_dup_err c p₂ r₂ k hk2 hk
      rw [h] at hbad
      simp [Except.isOk, Except.toBool] at hbad
  | cons st mid ih =>
    obtain ⟨p1, r1⟩ := st
    intro c k hk p₂ r₂ post hk2
    show (Config.parseStages c ((p1, r1) :: (mid ++ (p₂, r₂) :: post))).isOk = false
    unfold Config.parseStages
    cases h : Config.parse_stage c p1 r1 with
    | error e => simp [Except.isOk, Except.toBool]
    | ok c' => exact ih c' k (parse_stage_mono c c' p1 r1 k h hk) p₂ r₂ post hk2

/-- A stage with an unrecognized option name makes the whole
configuration parse fail, wherever it occurs. -/
theorem parseStages_unknown (pre : List (Path × List Tok)) :
    ∀ (c : Config) (p : Path) (r : List Tok) (post : List (Path × List Tok)),
      stageKind p = Option.none →
      (Config.parseStages c (pre ++ (p, r) :: post)).isOk = false := by
  induction pre with
  | nil =>
    intro c p r post hk
    show (Config.parseStages c ((p, r) :: post)).isOk = false
    unfold Config.parseStages
    cases h : Config.parse_stage c p r with
    | error e => rfl
    | ok c' =>
      have hbad := parse_stage_unknown_err c p r hk
      rw [h] at hbad
      simp [Except.isOk, Except.toBool] at hbad
  | cons st pre ih =>
    obtain ⟨p1, r1⟩ := st
    intro c p r post hk
    show (Config.parseStages c ((p1, r1) :: (pre ++ (p, r) :: post))).isOk = false
    unfold Config.parseStages
    cases h : Config.parse_stage c p1 r1 with
    | error e => simp [Except.isOk, Except.toBool]
    | ok c' => exact ih c' p r post hk

/-- Two stages addressing the same option make the whole configuration
parse fail. -/
theorem parseStages_dup (pre : List (Path × List Tok)) :
    ∀ (c : Config) (p₁ : Path) (r₁ : List Tok) (mid : List (Path × List Tok))
      (p₂ : Path) (r₂ : List Tok) (post : List (Path × List Tok)) (k : String),
      stageKind p₁ = some k → stageKind p₂ = some k →
      (Config.parseStages c (pre ++ (p₁, r₁) :: mid ++ (p₂, r₂) :: post)).isOk = false := by
  induction pre with
  | nil =>
    intro c p₁ r₁ mid p₂ r₂ post k hk1 hk2
    show (Config.parseStages c ((p₁, r₁) :: (mid ++ (p₂, r₂) :: post))).isOk = false
    unfold Config.parseStages
    cases h : Config.parse_stage c p₁ r₁ with
    | error e => rfl
    | ok c' =>
      exact parseStages_after_set mid c' k (parse_stage_sets c c' p₁ r₁ k h hk1) p₂ r₂ post hk2
  | cons st pre ih =>
    obtain ⟨pa, ra⟩ := st
    intro c p₁ r₁ mid p₂ r₂ post k hk1 hk2
    show (Config.parseStages c ((pa, ra) :: (pre ++ (p₁, r₁) :: mid ++ (p₂, r₂) :: post))).isOk
        = false
    unfold Config.parseStages
    cases h : Config.parse_stage c pa ra with
    | error e => simp [Except.isOk, Except.toBool]
    | ok c' => exact ih c' p₁ r₁ mid p₂ r₂ post k hk1 hk2

/-- C8 — each configuration option (`derive`, the `attributes` aliases,
the `visibility` aliases) may be given at most once: a second stage
addressing the same option, or a stage with an unrecognized option name,
makes the invocation abort with a configuration error; the resulting
output is the bare compile error, independent of the function item, so
the error is raised before any tree-walking of the function body begins. -/
theorem c8_config_once (item : ItemFn) (pre mid post : List (Path × List Tok))
    (p₁ p₂ : Path) (r₁ r₂ : List Tok) :
    ((∃ k, stageKind p₁ = some k ∧ stageKind p₂ = some k) →
        ∃ e, errgo_entry (pre ++ (p₁, r₁) :: mid ++ (p₂, r₂) :: post) item
          = ErrgoOutput.configError e)
    ∧ (stageKind p₁ = Option.none →
        ∃ e, errgo_entry (pre ++ (p₁, r₁) :: post) item = ErrgoOutput.configError e)
    ∧ ((∃ k, stageKind p₁ = some k ∧ stageKind p₂ = some k) →
        ∀ item₂, errgo_entry (pre ++ (p₁, r₁) :: mid ++ (p₂, r₂) :: post) item
          = errgo_entry (pre ++ (p₁, r₁) :: mid ++ (p₂, r₂) :: post) item₂) := by
  have hdup : (∃ k, stageKind p₁ = some k ∧ stageKind p₂ = some k) →
      ∃ e, Config.parseStages Config.default (pre ++ (p₁, r₁) :: mid ++ (p₂, r₂) :: post)
        = Except.error e := by
    rintro ⟨k, hk1, hk2⟩
    exact except_isOk_false _
      (parseStages_dup pre Config.default p₁ r₁ mid p₂ r₂ post k hk1 hk2)
  refine ⟨fun h => ?_, fun h => ?_, fun h item₂ => ?_⟩
  · obtain ⟨e, he⟩ := hdup h
    exact ⟨e, by unfold errgo_entry; rw [he]⟩
  · obtain ⟨e, he⟩ := except_isOk_false _
      (parseStages_unknown pre Config.default p₁ r₁ post h)
    exact ⟨e, by unfold errgo_entry; rw [he]⟩
  · obtain ⟨e, he⟩ := hdup h
    unfold errgo_entry
    rw [he]

/-- C8 witness: a pass through `attrs(...)` followed by its alias
`attributes(...)` (the same option twice) aborts, as does the single
unknown option `frobnicate(...)`; the aborted output does not depend on
the function item. -/
theorem c8_witness :
    (∃ e, errgo_entry
        [(pathOf ["attrs"],
          [Tok.group Delim.paren [Tok.punct '#', Tok.group Delim.bracket [Tok.ident "a"]]]),
         (pathOf ["attributes"],
          [Tok.group Delim.paren [Tok.punct '#', Tok.group Delim.bracket [Tok.ident "b"]]])]
        ⟨Visibility.inherited, ReturnType.default, Node.node "block" []⟩
      = ErrgoOutput.configError e)
    ∧ (∃ e, errgo_entry
        [(pathOf ["frobnicate"], [Tok.group Delim.paren []])]
        ⟨Visibility.inherited, ReturnType.default, Node.node "block" []⟩
      = ErrgoOutput.configError e)
    ∧ (∀ item₂, errgo_entry
        [(pathOf ["attrs"],
          [Tok.group Delim.paren [Tok.punct '#', Tok.group Delim.bracket [Tok.ident "a"]]]),
         (pathOf ["attributes"],
          [Tok.group Delim.paren [Tok.punct '#', Tok.group Delim.bracket [Tok.ident "b"]]])]
        ⟨Visibility.inherited, ReturnType.default, Node.node "block" []⟩
      = errgo_entry
        [(pathOf ["attrs"],
          [Tok.group Delim.paren [Tok.punct '#', Tok.group Delim.bracket [Tok.ident "a"]]]),
         (pathOf ["attributes"],
          [Tok.group Delim.paren [Tok.punct '#', Tok.group Delim.bracket [Tok.ident "b"]]])]
        item₂) :=
  ⟨(c8_config_once ⟨Visibility.inherited, ReturnType.default, Node.node "block" []⟩
      [] [] [] (pathOf ["attrs"]) (pathOf ["attributes"])
      [Tok.group Delim.paren [Tok.punct '#', Tok.group Delim.bracket [Tok.ident "a"]]]
      [Tok.group Delim.paren [Tok.punct '#', Tok.group Delim.bracket [Tok.ident "b"]]]).1
      ⟨"attributes", rfl, rfl⟩,
   (c8_config_once ⟨Visibility.inherited, ReturnType.default, Node.node "block" []⟩
      [] [] [] (pathOf ["frobnicate"]) (pathOf ["frobnicate"])
      [Tok.group Delim.paren []] [Tok.group Delim.paren []]).2.1 rfl,
   (c8_config_once ⟨Visibility.inherited, ReturnType.default, Node.node "block" []⟩
      [] [] [] (pathOf ["attrs"]) (pathOf ["attributes"])
      [Tok.group Delim.paren [Tok.punct '#', Tok.group Delim.bracket [Tok.ident "a"]]]
      [Tok.group Delim.paren [Tok.punct '#', Tok.group Delim.bracket [Tok.ident "b"]]]).2.2
      ⟨"attributes", rfl, rfl⟩⟩

/-! ## C6 and C9 — the shape of the variant grammar -/

/-- Does a token list contain a top-level comma? -/
def hasTopComma (ts : List Tok) : Bool := ts.any (isPunct ',')

theorem exprScan_no_comma (ts : List Tok) (h : hasTopComma ts = false) :
    exprScan ts = (ts, []) := by
  induction ts with
  | nil => rfl
  | cons t rest ih =>
    simp only [hasTopComma, List.any_cons, Bool.or_eq_false_iff] at h
    unfold exprScan
    rw [if_neg (by simp [h.1])]
    rw [ih h.2]

/-- A specification-side description of a field-shape chunk of marker
input: nothing (`Unit`), a braced field list, or a parenthesized field
list (§6's `( "(" unnamed_fields? ")" | "{" named_fields? "}" )?`). -/
inductive ShapeSpec where
  | unitS
  | namedS (inner : List Tok)
  | unnamedS (inner : List Tok)

def ShapeSpec.toToks : ShapeSpec → List Tok
  | .unitS => []
  | .namedS inner => [Tok.group Delim.brace inner]
  | .unnamedS inner => [Tok.group Delim.paren inner]

/-- The field value the parser must produce for a shape chunk. -/
def shapeOk : ShapeSpec → MultipleFieldsWithValues → Prop
  | .unitS, fs => fs = MultipleFieldsWithValues.unit
  | .namedS inner, fs =>
    ∃ l, parse_terminated parseFieldNamed inner = Except.ok l
      ∧ fs = MultipleFieldsWithValues.named l
  | .unnamedS inner, fs =>
    ∃ l, parse_terminated parseFieldUnnamed inner = Except.ok l
      ∧ fs = MultipleFieldsWithValues.unnamed l

/-- A well-formed optional discriminant chunk: absent, or a nonempty
expression run with no top-level comma. -/
def discOk : Option (List Tok) → Prop
  | Option.none => True
  | some d => d ≠ [] ∧ hasTopComma d = false

/-- Token rendering of §6's `metadata?` (a run of outer attributes). -/
def attrsToToks : List (List Tok) → List Tok
  | [] => []
  | a :: as => Tok.punct '#' :: Tok.group Delim.bracket a :: attrsToToks as

/-- Token rendering of §6's `("=" expr)?`. -/
def discToToks : Option (List Tok) → List Tok
  | Option.none => []
  | some d => Tok.punct '=' :: d

theorem parseOuterAttrs_run (as : List (List Tok)) (s : String) (rest : List Tok) :
    parseOuterAttrs (attrsToToks as ++ Tok.ident s :: rest)
      = Except.ok (as, Tok.ident s :: rest) := by
  induction as with
  | nil => rfl
  | cons a as ih =>
    show parseOuterAttrs (Tok.punct '#' :: Tok.group Delim.bracket a :: (attrsToToks as ++ Tok.ident s :: rest)) = _
    rw [parseOuterAttrs, ih]

/-- The variant parser accepts every well-formed instance of the grammar
`metadata? name shape? ("=" expr)?` and produces exactly the expected
definition. -/
theorem parse_accepts (metadata : List (List Tok)) (name : String)
    (shape : ShapeSpec) (fields : MultipleFieldsWithValues) (disc : Option (List Tok))
    (hpub : (name == "pub") = false) (hkw : rustKeywords.contains name = false)
    (hshape : shapeOk shape fields) (hdisc : discOk disc) :
    parse2VariantWithValue
        (attrsToToks metadata ++ Tok.ident name :: (ShapeSpec.toToks shape ++ discToToks disc))
      = Except.ok ⟨metadata, name, fields, disc.map (fun d => Expr.raw d)⟩ := by
  have hvis : parseVisibility (Tok.ident name :: (ShapeSpec.toToks shape ++ discToToks disc))
      = (Visibility.inherited, Tok.ident name :: (ShapeSpec.toToks shape ++ discToToks disc)) := by
    simp only [parseVisibility]
    rw [if_neg (by simp [hpub])]
  have hident : parseIdentTok (Tok.ident name :: (ShapeSpec.toToks shape ++ discToToks disc))
      = Except.ok (name, ShapeSpec.toToks shape ++ discToToks disc) := by
    simp only [parseIdentTok]
    rw [if_neg (by simpa using hkw)]
  have hdiscr : parseDiscriminant (discToToks disc)
      = Except.ok (disc.map (fun d => Expr.raw d), []) := by
    cases disc with
    | none => rfl
    | some d =>
      obtain ⟨hne, hnc⟩ := hdisc
      show parseDiscriminant (Tok.punct '=' :: d) = _
      have hexpr : parseExprToks d = Except.ok (Expr.raw d, []) := by
        unfold parseExprToks
        rw [exprScan_no_comma d hnc]
        cases d with
        | nil => exact absurd rfl hne
        | cons t ts => rfl
      simp only [parseDiscriminant]
      rw [hexpr]
      rfl
  have hfields : parseFieldsShape (ShapeSpec.toToks shape ++ discToToks disc)
      = Except.ok (fields, discToToks disc) := by
    cases shape with
    | unitS =>
      subst hshape
      cases disc with
      | none => rfl
      | some d => rfl
    | namedS inner =>
      obtain ⟨l, hpt, hfs⟩ := hshape
      subst hfs
      show parseFieldsShape (Tok.group Delim.brace inner :: discToToks disc) = _
      simp only [parseFieldsShape]
      rw [hpt]
    | unnamedS inner =>
      obtain ⟨l, hpt, hfs⟩ := hshape
      subst hfs
      show parseFieldsShape (Tok.group Delim.paren inner :: discToToks disc) = _
      simp only [parseFieldsShape]
      rw [hpt]
  unfold parse2VariantWithValue parseVariantWithValueToks
  rw [parseOuterAttrs_run]
  simp only [hvis, hident, hfields, hdiscr]

/-- The unconsumed input right after the variant name: the attribute,
visibility and identifier stages of the variant parser. -/
def afterName (toks : List Tok) : Option (List Tok) :=
  match parseOuterAttrs toks with
  | .error _ => Option.none
  | .ok (_, r1) =>
    match parseIdentTok (parseVisibility r1).2 with
    | .error _ => Option.none
    | .ok (_, r3) => some r3

/-- C6 — when a marker's contents parse successfully, the field shape is
decided by the single token after the name: a braced group yields
`Named`, a parenthesized group yields `Unnamed`, anything else (a
non-group token, a bracketed group, or end of input) yields `Unit`
(first conjunct); and the optional `=`-discriminant is accepted after
every field shape — `Named` (second conjunct), `Unnamed` (third) and
`Unit` (fourth) — without being rejected at this layer. -/
theorem c6_lookahead_shape :
    (∀ toks v, parse2VariantWithValue toks = Except.ok v →
      match afterName toks with
      | some (Tok.group Delim.brace _ :: _) =>
        ∃ fs, v.fields = MultipleFieldsWithValues.named fs
      | some (Tok.group Delim.paren _ :: _) =>
        ∃ fs, v.fields = MultipleFieldsWithValues.unnamed fs
      | some _ => v.fields = MultipleFieldsWithValues.unit
      | none => False)
    ∧ (∀ (name : String) (inner d : List Tok) (l : List FieldWithValueNamed),
        (name == "pub") = false → rustKeywords.contains name = false →
        parse_terminated parseFieldNamed inner = Except.ok l →
        d ≠ [] → hasTopComma d = false →
        parse2VariantWithValue
            (Tok.ident name :: Tok.group Delim.brace inner :: Tok.punct '=' :: d)
          = Except.ok ⟨[], name, MultipleFieldsWithValues.named l, some (Expr.raw d)⟩)
    ∧ (∀ (name : String) (inner d : List Tok) (l : List FieldWithValueUnnamed),
        (name == "pub") = false → rustKeywords.contains name = false →
        parse_terminated parseFieldUnnamed inner = Except.ok l →
        d ≠ [] → hasTopComma d = false →
        parse2VariantWithValue
            (Tok.ident name :: Tok.group Delim.paren inner :: Tok.punct '=' :: d)
          = Except.ok ⟨[], name, MultipleFieldsWithValues.unnamed l, some (Expr.raw d)⟩)
    ∧ (∀ (name : String) (d : List Tok),
        (name == "pub") = false → rustKeywords.contains name = false →
        d ≠ [] → hasTopComma d = false →
        parse2VariantWithValue (Tok.ident name :: Tok.punct '=' :: d)
          = Except.ok ⟨[], name, MultipleFieldsWithValues.unit, some (Expr.raw d)⟩) := by
  refine ⟨?_, ?_, ?_, ?_⟩
  · intro toks v h
    cases hs : parseVariantWithValueToks toks with
    | error e =>
      unfold parse2VariantWithValue at h
      simp [hs] at h
    | ok pr =>
      obtain ⟨v0, rest⟩ := pr
      unfold parse2VariantWithValue at h
      simp only [hs] at h
      cases rest with
      | cons t ts => exact Except.noConfusion h
      | nil =>
        injection h with hv0
        subst hv0
        unfold parseVariantWithValueToks at hs
        cases h1 : parseOuterAttrs toks with
        | error e => simp [h1] at hs
        | ok pr1 =>
          obtain ⟨attrs, r1⟩ := pr1
          simp only [h1] at hs
          cases h2 : parseIdentTok (parseVisibility r1).2 with
          | error e => simp [h2] at hs
          | ok pr2 =>
            obtain ⟨nm, r3⟩ := pr2
            simp only [h2] at hs
            have han : afterName toks = some r3 := by
              unfold afterName
              rw [h1]
              simp only []
              rw [h2]
            rw [han]
            cases h3 : parseFieldsShape r3 with
            | error e => simp [h3] at hs
            | ok pr3 =>
              obtain ⟨fields, r4⟩ := pr3
              simp only [h3] at hs
              cases h4 : parseDiscriminant r4 with
              | error e => simp [h4] at hs
              | ok pr4 =>
                obtain ⟨dsc, r5⟩ := pr4
                simp only [h4] at hs
                injection hs with hs'
                have hv : v0 = ⟨attrs, nm, fields, dsc⟩ := (congrArg Prod.fst hs').symm
                subst hv
                rcases r3 with _ | ⟨t, r3'⟩
                · -- end of input after the name: Unit
                  injection h3 with h3'
                  exact (congrArg Prod.fst h3').symm
                · cases t with
                  | group dl inner =>
                    cases dl with
                    | brace =>
                      simp only [parseFieldsShape] at h3
                      cases hpt : parse_terminated parseFieldNamed inner with
                      | error e => simp [hpt] at h3
                      | ok l =>
                        simp only [hpt] at h3
                        injection h3 with h3'
                        exact ⟨l, (congrArg Prod.fst h3').symm⟩
                    | paren =>
                      simp only [parseFieldsShape] at h3
                      cases hpt : parse_terminated parseFieldUnnamed inner with
                      | error e => simp [hpt] at h3
                      | ok l =>
                        simp only [hpt] at h3
                        injection h3 with h3'
                        exact ⟨l, (congrArg Prod.fst h3').symm⟩
                    | bracket =>
                      injection h3 with h3'
                      exact (congrArg Prod.fst h3').symm
                  | ident s =>
                    injection h3 with h3'
                    exact (congrArg Prod.fst h3').symm
                  | punct ch =>
                    injection h3 with h3'
                    exact (congrArg Prod.fst h3').symm
                  | lit s =>
                    injection h3 with h3'
                    exact (congrArg Prod.fst h3').symm
  · intro name inner d l hpub hkw hpt hne hnc
    exact parse_accepts [] name (ShapeSpec.namedS inner) (MultipleFieldsWithValues.named l)
      (some d) hpub hkw ⟨l, hpt, rfl⟩ ⟨hne, hnc⟩
  · intro name inner d l hpub hkw hpt hne hnc
    exact parse_accepts [] name (ShapeSpec.unnamedS inner) (MultipleFieldsWithValues.unnamed l)
      (some d) hpub hkw ⟨l, hpt, rfl⟩ ⟨hne, hnc⟩
  · intro name d hpub hkw hne hnc
    exact parse_accepts [] name ShapeSpec.unitS MultipleFieldsWithValues.unit
      (some d) hpub hkw rfl ⟨hne, hnc⟩

/-- C6 witness: the lookahead conjunct applied to the concrete marker
`Foo { bar: u8 = 1 }`, and the three discriminant-acceptance conjuncts
applied to `Foo { bar: u8 = 1 } = 7`, `Foo(u8 = 1) = 7` and `Foo = 7`. -/
theorem c6_witness :
    (∃ fs,
      (VariantWithValue.mk [] "Foo"
        (MultipleFieldsWithValues.named
          [⟨[], "bar", Ty.verbatim [Tok.ident "u8"], Expr.raw [Tok.lit "1"]⟩])
        Option.none).fields = MultipleFieldsWithValues.named fs)
    ∧ parse2VariantWithValue
        (Tok.ident "Foo" ::
          Tok.group Delim.brace
            [Tok.ident "bar", Tok.punct ':', Tok.ident "u8", Tok.punct '=', Tok.lit "1"] ::
          Tok.punct '=' :: [Tok.lit "7"])
        = Except.ok ⟨[], "Foo",
            MultipleFieldsWithValues.named
              [⟨[], "bar", Ty.verbatim [Tok.ident "u8"], Expr.raw [Tok.lit "1"]⟩],
            some (Expr.raw [Tok.lit "7"])⟩
    ∧ parse2VariantWithValue
        (Tok.ident "Foo" ::
          Tok.group Delim.paren [Tok.ident "u8", Tok.punct '=', Tok.lit "1"] ::
          Tok.punct '=' :: [Tok.lit "7"])
        = Except.ok ⟨[], "Foo",
            MultipleFieldsWithValues.unnamed
              [⟨[], Ty.verbatim [Tok.ident "u8"], Expr.raw [Tok.lit "1"]⟩],
            some (Expr.raw [Tok.lit "7"])⟩
    ∧ parse2VariantWithValue (Tok.ident "Foo" :: Tok.punct '=' :: [Tok.lit "7"])
        = Except.ok ⟨[], "Foo", MultipleFieldsWithValues.unit, some (Expr.raw [Tok.lit "7"])⟩ := by
  obtain ⟨h1, h2, h3, h4⟩ := c6_lookahead_shape
  exact ⟨h1 [Tok.ident "Foo",
      Tok.group Delim.brace
        [Tok.ident "bar", Tok.punct ':', Tok.ident "u8", Tok.punct '=', Tok.lit "1"]]
      ⟨[], "Foo",
        MultipleFieldsWithValues.named
          [⟨[], "bar", Ty.verbatim [Tok.ident "u8"], Expr.raw [Tok.lit "1"]⟩],
        Option.none⟩ rfl,
    h2 "Foo" [Tok.ident "bar", Tok.punct ':', Tok.ident "u8", Tok.punct '=', Tok.lit "1"]
      [Tok.lit "7"] [⟨[], "bar", Ty.verbatim [Tok.ident "u8"], Expr.raw [Tok.lit "1"]⟩]
      rfl rfl rfl (by simp) rfl,
    h3 "Foo" [Tok.ident "u8", Tok.punct '=', Tok.lit "1"] [Tok.lit "7"]
      [⟨[], Ty.verbatim [Tok.ident "u8"], Expr.raw [Tok.lit "1"]⟩]
      rfl rfl rfl (by simp) rfl,
    h4 "Foo" [Tok.lit "7"] rfl rfl (by simp) rfl⟩

/-- C9 counterexample.  The grammar places metadata *before* the name:
`#[doc] Foo` parses (with the attribute collected), while the claim's
order `Foo #[doc]` — name first, metadata after — is rejected by the
parser (the attribute tokens are left unconsumed). -/
theorem c9_counterexample :
    parse2VariantWithValue
        [Tok.punct '#', Tok.group Delim.bracket [Tok.ident "doc"], Tok.ident "Foo"]
      = Except.ok ⟨[[Tok.ident "doc"]], "Foo", MultipleFieldsWithValues.unit, Option.none⟩
    ∧ ¬∃ v, parse2VariantWithValue
        [Tok.ident "Foo", Tok.punct '#', Tok.group Delim.bracket [Tok.ident "doc"]]
      = Except.ok v := by
  refine ⟨rfl, ?_⟩
  rintro ⟨v, hv⟩
  exact Except.noConfusion
    (show (Except.error "unexpected token" : Except String VariantWithValue)
        = Except.ok v from hv)

/-- C9 (amended) — a marker's contents match the grammar in which any
optional metadata comes *first*, followed by the name, then the optional
parenthesized or braced field list, then the optional `=` expression:
the parser accepts every well-formed instance of
`metadata? name ( "(" ... ")" | "{" ... "}" )? ("=" expr)?` and returns
exactly the metadata, name, fields and discriminant so laid out. -/
theorem c9_grammar_order (metadata : List (List Tok)) (name : String)
    (shape : ShapeSpec) (fields : MultipleFieldsWithValues) (disc : Option (List Tok))
    (hpub : (name == "pub") = false) (hkw : rustKeywords.contains name = false)
    (hshape : shapeOk shape fields) (hdisc : discOk disc) :
    parse2VariantWithValue
        (attrsToToks metadata ++ Tok.ident name :: (ShapeSpec.toToks shape ++ discToToks disc))
      = Except.ok ⟨metadata, name, fields, disc.map (fun d => Expr.raw d)⟩ :=
  parse_accepts metadata name shape fields disc hpub hkw hshape hdisc

/-- C9 witness: `#[doc] Foo(u8 = 1) = 7` — metadata, then name, then an
unnamed field list, then a discriminant — parses to exactly that
definition. -/
theorem c9_witness :
    parse2VariantWithValue
        (attrsToToks [[Tok.ident "doc"]] ++ Tok.ident "Foo" ::
          (ShapeSpec.toToks (ShapeSpec.unnamedS [Tok.ident "u8", Tok.punct '=', Tok.lit "1"])
            ++ discToToks (some [Tok.lit "7"])))
      = Except.ok ⟨[[Tok.ident "doc"]], "Foo",
          MultipleFieldsWithValues.unnamed
            [⟨[], Ty.verbatim [Tok.ident "u8"], Expr.raw [Tok.lit "1"]⟩],
          some (Expr.raw [Tok.lit "7"])⟩ :=
  c9_grammar_order [[Tok.ident "doc"]] "Foo"
    (ShapeSpec.unnamedS [Tok.ident "u8", Tok.punct '=', Tok.lit "1"])
    (MultipleFieldsWithValues.unnamed
      [⟨[], Ty.verbatim [Tok.ident "u8"], Expr.raw [Tok.lit "1"]⟩])
    (some [Tok.lit "7"]) rfl rfl
    ⟨[⟨[], Ty.verbatim [Tok.ident "u8"], Expr.raw [Tok.lit "1"]⟩], rfl, rfl⟩
    ⟨by simp, rfl⟩

end Errgo
